import Mathlib

/-!
Verification of the Listening Fill-in-the-Blanks application (`src/App.jsx`).

Strings are modelled as `List Char`.  The transcript parser in
`addQuestion` / `updateQuestion` is driven by the JavaScript regex
`/\[(.+?)\]/g`: scanning left to right, a match starts at a literal
opening bracket, lazily consumes one or more non-newline characters,
and ends at the first closing bracket reached that way.  `findMatch`
below embeds exactly that leftmost, lazy matching discipline, and
`parseGo` embeds the `while ((m = regex.exec(transcript)))` loop,
using the string length as structural fuel (each match consumes at
least three characters, so the fuel never runs out on reachable
inputs).
-/

namespace FIB

/-- JavaScript strings, modelled as lists of characters. -/
abbrev Str := List Char

/-- A transcript token: either a literal text fragment or a placeholder
referencing a blank index (`{ blank: i }` in the source). -/
inductive Token where
  | lit : Str → Token
  | blank : Nat → Token
deriving DecidableEq, Repr

/-- The lazy scan for the closing bracket: after the first content
character has been consumed, `.+?` extends one non-newline character at
a time until `\]` matches, so the content before the closing bracket
contains no `]` and no newline.  Returns the consumed content suffix and
the remainder after the closing bracket. -/
def scanClose : Str → Option (Str × Str)
  | [] => none
  | c :: cs =>
    if c = ']' then some ([], cs)
    else if c = '\n' then none
    else (scanClose cs).map (fun pr => (c :: pr.1, pr.2))

/-- Attempt the regex match immediately after an opening bracket:
`.+?` must consume at least one non-newline character (which may itself
be `]`), then the scan for the closing bracket proceeds. -/
def matchAt : Str → Option (Str × Str)
  | [] => none
  | c :: cs =>
    if c = '\n' then none
    else (scanClose cs).map (fun pr => (c :: pr.1, pr.2))

/-- Leftmost match of `/\[(.+?)\]/` in a string: try every start
position from the left; at an opening bracket attempt the lazy match,
otherwise (or on failure) move one character right.  Returns
`(pre, content, rest)` with the input equal to
`pre ++ [ content ] ++ rest`. -/
def findMatch : Str → Option (Str × Str × Str)
  | [] => none
  | c :: cs =>
    if c = '[' then
      match matchAt cs with
      | some pr => some ([], pr.1, pr.2)
      | none => (findMatch cs).map (fun m => (c :: m.1, m.2.1, m.2.2))
    else (findMatch cs).map (fun m => (c :: m.1, m.2.1, m.2.2))

/-- The parser loop of `addQuestion` / `updateQuestion`: repeatedly take
the next regex match; the text before the match becomes a literal token
when non-empty, the content becomes the next blank, and a placeholder
token carrying the running blank counter is emitted; trailing text
becomes a final literal token.  `fuel` bounds the recursion and is
instantiated with the string length in `parse`. -/
def parseGo : Nat → Str → Nat → List Token × List Str
  | 0, s, _ => (if s = [] then [] else [Token.lit s], [])
  | fuel + 1, s, k =>
    match findMatch s with
    | none => (if s = [] then [] else [Token.lit s], [])
    | some m =>
      let r := parseGo fuel m.2.2 (k + 1)
      ((if m.1 = [] then [] else [Token.lit m.1]) ++ Token.blank k :: r.1, m.2.1 :: r.2)

/-- `parse transcript = (tokens, blanks)` as computed by the token /
blank construction loop shared by `addQuestion` and `updateQuestion`. -/
def parse (s : Str) : List Token × List Str := parseGo s.length s 0

/-- One token of the transcript re-derivation in `AdminPanel`:
`typeof t === "string" ? t : "[" + blanks[t.blank] + "]"`. -/
def renderTok (blanks : List Str) : Token → Str
  | Token.lit l => l
  | Token.blank i => '[' :: (blanks.getD i [] ++ [']'])

/-- The transcript re-derivation in `AdminPanel`: map every token to its
text (literal as-is, placeholder re-wrapped in brackets) and join. -/
def render (blanks : List Str) (tokens : List Token) : Str :=
  (tokens.map (renderTok blanks)).flatten

/-- Spec-side reconstruction used by the totality property: a literal
token contributes its text and a placeholder contributes its answer
text with the bracket markers removed. -/
def renderBareTok (blanks : List Str) : Token → Str
  | Token.lit l => l
  | Token.blank i => blanks.getD i []

/-- Spec-side reconstruction of the transcript with bracket markers
removed: literals concatenated, each placeholder replaced by its
answer. -/
def renderBare (blanks : List Str) (tokens : List Token) : Str :=
  (tokens.map (renderBareTok blanks)).flatten

/-- Independent count of the well-formed bracket spans of a string:
iterate the same leftmost lazy match and count the matches. -/
def spanCountGo : Nat → Str → Nat
  | 0, _ => 0
  | fuel + 1, s =>
    match findMatch s with
    | none => 0
    | some m => spanCountGo fuel m.2.2 + 1

/-- Number of well-formed bracket spans of a string. -/
def spanCount (s : Str) : Nat := spanCountGo s.length s

/-- The string with the bracket markers of every well-formed span
removed (and nothing else changed). -/
def stripSpansGo : Nat → Str → Str
  | 0, s => s
  | fuel + 1, s =>
    match findMatch s with
    | none => s
    | some m => m.1 ++ m.2.1 ++ stripSpansGo fuel m.2.2

/-- The string with all matched bracket markers removed. -/
def stripSpans (s : Str) : Str := stripSpansGo s.length s

/-- Whether a token is a placeholder. -/
def isBlankTok : Token → Bool
  | Token.lit _ => false
  | Token.blank _ => true

/-- Number of placeholder tokens in a token sequence. -/
def countBlanks (ts : List Token) : Nat := ts.countP isBlankTok

theorem scanClose_spec : ∀ cs pre rest, scanClose cs = some (pre, rest) →
    cs = pre ++ ']' :: rest ∧ ∀ x ∈ pre, x ≠ ']' ∧ x ≠ '\n' := by
  intro cs
  induction cs with
  | nil => intro pre rest h; simp [scanClose] at h
  | cons c cs ih =>
    intro pre rest h
    simp only [scanClose] at h
    by_cases hc : c = ']'
    · rw [if_pos hc] at h
      rw [Option.some.injEq, Prod.mk.injEq] at h
      obtain ⟨h1, h2⟩ := h
      subst h1; subst h2; subst hc
      simp
    · rw [if_neg hc] at h
      by_cases hn : c = '\n'
      · rw [if_pos hn] at h; exact absurd h (by simp)
      · rw [if_neg hn, Option.map_eq_some'] at h
        obtain ⟨a, hsc, hpair⟩ := h
        rw [Prod.mk.injEq] at hpair
        obtain ⟨h1, h2⟩ := hpair
        subst h1; subst h2
        obtain ⟨he, hmem⟩ := ih a.1 a.2 hsc
        refine ⟨by simp [he], ?_⟩
        intro x hx
        rcases List.mem_cons.mp hx with hx | hx
        · subst hx; exact ⟨hc, hn⟩
        · exact hmem x hx

theorem matchAt_spec : ∀ cs content rest, matchAt cs = some (content, rest) →
    cs = content ++ ']' :: rest ∧ content ≠ [] ∧
      (∀ x ∈ content, x ≠ '\n') ∧ ∀ x ∈ content.tail, x ≠ ']' := by
  intro cs content rest h
  cases cs with
  | nil => simp [matchAt] at h
  | cons c cs =>
    simp only [matchAt] at h
    by_cases hn : c = '\n'
    · rw [if_pos hn] at h; exact absurd h (by simp)
    · rw [if_neg hn, Option.map_eq_some'] at h
      obtain ⟨a, hsc, hpair⟩ := h
      rw [Prod.mk.injEq] at hpair
      obtain ⟨h1, h2⟩ := hpair
      subst h1; subst h2
      obtain ⟨he, hmem⟩ := scanClose_spec cs a.1 a.2 hsc
      refine ⟨by simp [he], by simp, ?_, ?_⟩
      · intro x hx
        rcases List.mem_cons.mp hx with hx | hx
        · subst hx; exact hn
        · exact (hmem x hx).2
      · intro x hx
        exact (hmem x hx).1

theorem findMatch_spec : ∀ s pre content rest,
    findMatch s = some (pre, content, rest) →
    s = pre ++ '[' :: (content ++ ']' :: rest) ∧ content ≠ [] ∧
      (∀ x ∈ content, x ≠ '\n') ∧ ∀ x ∈ content.tail, x ≠ ']' := by
  intro s
  induction s with
  | nil => intro pre content rest h; simp [findMatch] at h
  | cons c cs ih =>
    intro pre content rest h
    simp only [findMatch] at h
    by_cases hc : c = '['
    · rw [if_pos hc] at h
      cases hma : matchAt cs with
      | some pr =>
        rw [hma] at h
        rw [Option.some.injEq, Prod.mk.injEq, Prod.mk.injEq] at h
        obtain ⟨h1, h2, h3⟩ := h
        subst h1; subst h2; subst h3; subst hc
        obtain ⟨he, hne, hnl, htl⟩ := matchAt_spec cs pr.1 pr.2 hma
        exact ⟨by simp [he], hne, hnl, htl⟩
      | none =>
        rw [hma, Option.map_eq_some'] at h
        obtain ⟨m, hfm, hm⟩ := h
        rw [Prod.mk.injEq, Prod.mk.injEq] at hm
        obtain ⟨h1, h2, h3⟩ := hm
        subst h1; subst h2; subst h3; subst hc
        obtain ⟨he, hne, hnl, htl⟩ := ih m.1 m.2.1 m.2.2 hfm
        exact ⟨by simp [he], hne, hnl, htl⟩
    · rw [if_neg hc, Option.map_eq_some'] at h
      obtain ⟨m, hfm, hm⟩ := h
      rw [Prod.mk.injEq, Prod.mk.injEq] at hm
      obtain ⟨h1, h2, h3⟩ := hm
      subst h1; subst h2; subst h3
      obtain ⟨he, hne, hnl, htl⟩ := ih m.1 m.2.1 m.2.2 hfm
      exact ⟨by simp [he], hne, hnl, htl⟩

/-- Every match consumes at least the two bracket characters, so the
remainder is shorter than the input by at least two. -/
theorem findMatch_length {s pre content rest : Str}
    (h : findMatch s = some (pre, content, rest)) :
    rest.length + 2 ≤ s.length := by
  obtain ⟨he, _, _, _⟩ := findMatch_spec s pre content rest h
  subst he
  simp [List.length_append]
  omega

theorem render_append (g : List Str) (a b : List Token) :
    render g (a ++ b) = render g a ++ render g b := by
  simp [render]

theorem render_cons (g : List Str) (t : Token) (ts : List Token) :
    render g (t :: ts) = renderTok g t ++ render g ts := by
  simp [render]

theorem renderBare_append (g : List Str) (a b : List Token) :
    renderBare g (a ++ b) = renderBare g a ++ renderBare g b := by
  simp [renderBare]

theorem renderBare_cons (g : List Str) (t : Token) (ts : List Token) :
    renderBare g (t :: ts) = renderBareTok g t ++ renderBare g ts := by
  simp [renderBare]

theorem getD_of_getElem? {g : List Str} {n : Nat} {a : Str}
    (h : g[n]? = some a) : g.getD n [] = a := by
  rw [List.getD_eq_getElem?_getD, h]
  rfl

/-- Main induction for the round trip: rendering the tokens produced by
the parser loop against any blank list that agrees with the produced
blanks (shifted by the running counter `k`) reconstructs the input. -/
theorem parseGo_render : ∀ fuel s k g, s.length ≤ fuel →
    (∀ j c, (parseGo fuel s k).2[j]? = some c → g[k + j]? = some c) →
    render g (parseGo fuel s k).1 = s := by
  intro fuel
  induction fuel with
  | zero =>
    intro s k g hlen _
    have hs : s = [] := List.eq_nil_of_length_eq_zero (Nat.le_zero.mp hlen)
    subst hs
    simp [parseGo, render]
  | succ fuel ih =>
    intro s k g hlen hg
    cases hm : findMatch s with
    | none =>
      by_cases hs : s = []
      · subst hs; simp [parseGo, hm, render]
      · simp [parseGo, hm, hs, render, renderTok]
    | some m =>
      obtain ⟨he, _, _, _⟩ := findMatch_spec s m.1 m.2.1 m.2.2 hm
      have hlen2 : m.2.2.length ≤ fuel := by
        have := @findMatch_length s m.1 m.2.1 m.2.2 hm
        omega
      have hg0 : g[k]? = some m.2.1 := by
        have := hg 0 m.2.1 (by simp [parseGo, hm])
        simpa using this
      have hgrest : ∀ j c, (parseGo fuel m.2.2 (k + 1)).2[j]? = some c →
          g[(k + 1) + j]? = some c := by
        intro j c hc
        have := hg (j + 1) c (by simp [parseGo, hm]; exact hc)
        have harith : k + (j + 1) = (k + 1) + j := by omega
        rwa [harith] at this
      have hrest := ih m.2.2 (k + 1) g hlen2 hgrest
      simp only [parseGo, hm]
      rw [render_append, render_cons, hrest]
      have hblank : renderTok g (Token.blank k) = '[' :: (m.2.1 ++ [']']) := by
        simp only [renderTok]
        rw [getD_of_getElem? hg0]
      by_cases hp : m.1 = []
      · rw [if_pos hp, hblank, he, hp]
        simp [render]
      · rw [if_neg hp, render_cons, hblank, he]
        simp [render, renderTok]

/-- C3: parser round-trip.  Proved for every string, not only for those
with well-formed bracket spans: the `AdminPanel` re-derivation
(literal tokens as-is, each blank re-wrapped in brackets, in token
order) reconstructs the original transcript exactly. -/
theorem parser_round_trip (s : Str) : render (parse s).2 (parse s).1 = s := by
  have h := parseGo_render s.length s 0 (parse s).2 le_rfl ?_
  · exact h
  · intro j c hc
    simpa using hc

/-- The number of placeholder tokens and the number of produced blanks
both equal the number of matches found by the scan. -/
theorem parseGo_count : ∀ fuel s k, s.length ≤ fuel →
    countBlanks (parseGo fuel s k).1 = spanCountGo fuel s ∧
    (parseGo fuel s k).2.length = spanCountGo fuel s := by
  intro fuel
  induction fuel with
  | zero =>
    intro s k hlen
    have hs : s = [] := List.eq_nil_of_length_eq_zero (Nat.le_zero.mp hlen)
    subst hs
    simp [parseGo, spanCountGo, countBlanks]
  | succ fuel ih =>
    intro s k hlen
    cases hm : findMatch s with
    | none =>
      by_cases hs : s = []
      · subst hs; simp [parseGo, hm, spanCountGo, countBlanks]
      · simp [parseGo, hm, hs, spanCountGo, countBlanks, isBlankTok]
    | some m =>
      have hlen2 : m.2.2.length ≤ fuel := by
        have := @findMatch_length s m.1 m.2.1 m.2.2 hm
        omega
      obtain ⟨ih1, ih2⟩ := ih m.2.2 (k + 1) hlen2
      constructor
      · by_cases hp : m.1 = [] <;>
          simp [parseGo, hm, hp, spanCountGo, countBlanks, isBlankTok,
            List.countP_append, List.countP_cons] at ih1 ⊢ <;> omega
      · simp [parseGo, hm, spanCountGo, ih2]

/-- Replacing every placeholder by its bare answer reconstructs the
input with the matched bracket markers removed. -/
theorem parseGo_bare : ∀ fuel s k g, s.length ≤ fuel →
    (∀ j c, (parseGo fuel s k).2[j]? = some c → g[k + j]? = some c) →
    renderBare g (parseGo fuel s k).1 = stripSpansGo fuel s := by
  intro fuel
  induction fuel with
  | zero =>
    intro s k g hlen _
    have hs : s = [] := List.eq_nil_of_length_eq_zero (Nat.le_zero.mp hlen)
    subst hs
    simp [parseGo, stripSpansGo, renderBare]
  | succ fuel ih =>
    intro s k g hlen hg
    cases hm : findMatch s with
    | none =>
      by_cases hs : s = []
      · subst hs; simp [parseGo, hm, stripSpansGo, renderBare]
      · simp [parseGo, hm, hs, stripSpansGo, renderBare, renderBareTok]
    | some m =>
      have hlen2 : m.2.2.length ≤ fuel := by
        have := @findMatch_length s m.1 m.2.1 m.2.2 hm
        omega
      have hg0 : g[k]? = some m.2.1 := by
        have := hg 0 m.2.1 (by simp [parseGo, hm])
        simpa using this
      have hgrest : ∀ j c, (parseGo fuel m.2.2 (k + 1)).2[j]? = some c →
          g[(k + 1) + j]? = some c := by
        intro j c hc
        have := hg (j + 1) c (by simp [parseGo, hm]; exact hc)
        have harith : k + (j + 1) = (k + 1) + j := by omega
        rwa [harith] at this
      have hrest := ih m.2.2 (k + 1) g hlen2 hgrest
      simp only [parseGo, hm]
      rw [renderBare_append, renderBare_cons, hrest]
      have hblank : renderBareTok g (Token.blank k) = m.2.1 := by
        simp only [renderBareTok]
        rw [getD_of_getElem? hg0]
      rw [hblank]
      simp only [stripSpansGo, hm]
      by_cases hp : m.1 = []
      · rw [if_pos hp, hp]
        simp [renderBare]
      · rw [if_neg hp, renderBare_cons]
        simp [renderBare, renderBareTok]

/-- Every blank produced by the parser loop is non-empty and contains
no newline (the regex piece `.+?` requires at least one character and
`.` never matches a newline). -/
theorem parseGo_blanks : ∀ fuel s k c, c ∈ (parseGo fuel s k).2 →
    c ≠ [] ∧ ∀ x ∈ c, x ≠ '\n' := by
  intro fuel
  induction fuel with
  | zero => intro s k c hc; simp [parseGo] at hc
  | succ fuel ih =>
    intro s k c hc
    cases hm : findMatch s with
    | none => simp [parseGo, hm] at hc
    | some m =>
      simp only [parseGo, hm] at hc
      rcases List.mem_cons.mp hc with hc | hc
      · obtain ⟨_, hne, hnl, _⟩ := findMatch_spec s m.1 m.2.1 m.2.2 hm
        subst hc
        exact ⟨hne, hnl⟩
      · exact ih m.2.2 (k + 1) c hc

/-- C7: parser totality.  `parse` is a total function on strings (it is
defined by structural recursion on a fuel bounded by the string length,
which the length lemma shows sufficient), its placeholder count and its
blank count both equal the number of well-formed bracket spans found by
the scan, and concatenating literal tokens with each placeholder
replaced by its answer reconstructs the input with the matched bracket
markers removed. -/
theorem parser_totality (s : Str) :
    countBlanks (parse s).1 = spanCount s ∧
    (parse s).2.length = spanCount s ∧
    renderBare (parse s).2 (parse s).1 = stripSpans s := by
  obtain ⟨h1, h2⟩ := parseGo_count s.length s 0 le_rfl
  refine ⟨h1, h2, ?_⟩
  have h := parseGo_bare s.length s 0 (parse s).2 le_rfl ?_
  · exact h
  · intro j c hc
    simpa using hc

/-- C10: a bracket span is recognized as a blank only if its content is
at least one character long and contains no newline; an empty bracket
pair and a bracketed span containing a line break stay literal text. -/
theorem blank_content_shape :
    (∀ s c, c ∈ (parse s).2 → c ≠ [] ∧ ∀ x ∈ c, x ≠ '\n') ∧
    parse ('[' :: ']' :: []) = ([Token.lit ['[', ']']], []) ∧
    parse ('[' :: 'a' :: '\n' :: 'b' :: ']' :: []) =
      ([Token.lit ['[', 'a', '\n', 'b', ']']], []) := by
  refine ⟨?_, by decide, by decide⟩
  intro s c hc
  exact parseGo_blanks s.length s 0 c hc

theorem blank_content_shape_witness :
    (['x'] : Str) ≠ [] ∧ ∀ x ∈ (['x'] : Str), x ≠ '\n' :=
  blank_content_shape.1 ('[' :: 'x' :: ']' :: []) ['x'] (by decide)

/-- C4 counterexample: the recognized span of `"[a[b]"` has content
`a[b`, which contains an opening bracket, contradicting the claim that
recognized span content never contains brackets. -/
theorem span_content_bracket_cex :
    (parse ('[' :: 'a' :: '[' :: 'b' :: ']' :: [])).2 = [['a', '[', 'b']] ∧
    '[' ∈ (['a', '[', 'b'] : Str) := by
  exact ⟨by decide, by decide⟩

/-- C4 amended: scanning left to right, each recognized span `[content]`
has non-empty content with no closing bracket after its first character
and no newline (the lazy match stops at the first closing bracket that
terminates a non-empty content); opening brackets may occur inside the
content.  A string in which the pattern never completes is emitted
unchanged as ordinary literal text. -/
theorem span_matching_amended :
    (∀ s pre c rest, findMatch s = some (pre, c, rest) →
      c ≠ [] ∧ (∀ x ∈ c.tail, x ≠ ']') ∧ (∀ x ∈ c, x ≠ '\n') ∧
        s = pre ++ '[' :: (c ++ ']' :: rest)) ∧
    ∀ s, findMatch s = none →
      parse s = ((if s = [] then [] else [Token.lit s]), []) := by
  constructor
  · intro s pre c rest h
    obtain ⟨he, hne, hnl, htl⟩ := findMatch_spec s pre c rest h
    exact ⟨hne, htl, hnl, he⟩
  · intro s h
    cases s with
    | nil => simp [parse, parseGo]
    | cons c cs => simp [parse, parseGo, h]

theorem span_matching_amended_witness :
    (['x'] : Str) ≠ [] ∧ (∀ x ∈ (['x'] : Str).tail, x ≠ ']') ∧
      (∀ x ∈ (['x'] : Str), x ≠ '\n') ∧
      ('[' :: 'x' :: ']' :: [] : Str) = [] ++ '[' :: (['x'] ++ ']' :: []) :=
  span_matching_amended.1 ('[' :: 'x' :: ']' :: []) [] ['x'] [] (by decide)

/-- A question record: `id`, `title`, `audioUrl`, `timeLimitSec`,
`tokens`, `blanks`.  `audioUrl` and `timeLimitSec` are `Option` because
the JavaScript record fields can hold `undefined` (a draft field that
was never supplied is spread into the record unchanged). -/
structure Question where
  id : Str
  title : Str
  audioUrl : Option Str
  timeLimitSec : Option Int
  tokens : List Token
  blanks : List Str
deriving DecidableEq, Repr

/-- The argument of `addQuestion` / `updateQuestion`:
`{ title, transcript, audioUrl, timeLimitSec }`.  Fields other than the
transcript may be `undefined` (`none`). -/
structure Draft where
  title : Option Str
  transcript : Str
  audioUrl : Option Str
  timeLimitSec : Option Int
deriving DecidableEq, Repr

/-- The per-question play state: `answers`, `checked`, `score`,
`timeLeft`.  `answers` is the `{blankIndex: text}` object, modelled as a
partial map; an absent key is `none`. -/
structure Session where
  answers : Nat → Option Str
  checked : Bool
  score : Nat
  timeLeft : Option Int

/-- JavaScript `s.trim()`: remove surrounding whitespace. -/
def trimStr (s : Str) : Str :=
  ((s.dropWhile Char.isWhitespace).reverse.dropWhile Char.isWhitespace).reverse

/-- JavaScript `s.toLowerCase()`. -/
def lowerStr (s : Str) : Str := s.map Char.toLower

/-- `isCorrect` from the source:
`answers[i] && answers[i].trim().toLowerCase() === q.blanks[i].trim().toLowerCase()`.
A missing key (`undefined`) and the empty string are falsy, so the
comparison is only reached for a present non-empty entry. -/
def isCorrect (q : Question) (answers : Nat → Option Str) (i : Nat) : Bool :=
  match answers i with
  | none => false
  | some u => !u.isEmpty && (lowerStr (trimStr u) == lowerStr (trimStr (q.blanks.getD i [])))

/-- `handleCheck`: count the correct blanks over `0..blanksCount-1`,
store the count in `score` and set `checked`. -/
def handleCheck (q : Question) (s : Session) : Session :=
  { s with
    score := (List.range q.blanks.length).countP (fun i => isCorrect q s.answers i),
    checked := true }

/-- The Check event as the app exposes it: the button carries
`disabled={checked}` and the timer effect guards with `!checked`, so
`handleCheck` only runs while `checked` is false. -/
def checkEvent (q : Question) (s : Session) : Session :=
  if s.checked then s else handleCheck q s

/-- `handleShowAnswers`: fill `answers[i] = q.blanks[i]` for every blank
index and set `checked`; the source sets nothing else (in particular it
leaves `score` untouched). -/
def handleShowAnswers (q : Question) (s : Session) : Session :=
  { s with answers := fun i => q.blanks.get? i, checked := true }

/-- `handleReset`: clear answers, clear `checked`, zero the score and
reinitialize the timer from `q.timeLimitSec`. -/
def handleReset (q : Question) (_s : Session) : Session :=
  { answers := fun _ => none, checked := false, score := 0, timeLeft := q.timeLimitSec }

/-- The session state installed when a question becomes active (the
effect keyed on `[index, q]`). -/
def initSession (q : Question) : Session :=
  { answers := fun _ => none, checked := false, score := 0, timeLeft := q.timeLimitSec }

/-- The seed data `SAMPLE_QUESTIONS` from the source. -/
def sampleQ : Question :=
  { id := ['q', '1']
    title := "Urban parks audio clip".toList
    audioUrl := some "https://www.soundhelix.com/examples/mp3/SoundHelix-Song-1.mp3".toList
    timeLimitSec := some 90
    tokens :=
      [Token.lit "City parks provide vital ".toList, Token.blank 0,
       Token.lit " for residents, offering spaces for ".toList, Token.blank 1,
       Token.lit ", relaxation, and community events.".toList]
    blanks := ["amenities".toList, "exercise".toList] }

/-- `SAMPLE_QUESTIONS`: the built-in seed collection. -/
def SAMPLE_QUESTIONS : List Question := [sampleQ]

/-- Startup initialisation of the question collection:
`saved ? JSON.parse(saved) : SAMPLE_QUESTIONS` where
`saved = localStorage.getItem("fib-questions")`.  `saved = none` models
a missing key and the empty string is falsy, so both fall back to the
seed.  `jsonParse` models the platform `JSON.parse`, whose result is
`none` when it throws on malformed input; the overall result `none`
means the exception escapes (there is no surrounding try/catch) and
startup crashes. -/
def initQuestions (saved : Option Str)
    (jsonParse : Str → Option (List Question)) : Option (List Question) :=
  match saved with
  | none => some SAMPLE_QUESTIONS
  | some s => if s = [] then some SAMPLE_QUESTIONS else jsonParse s

/-- The `title || fallback` idiom: `undefined` and the empty string are
falsy and select the fallback. -/
def mergeTitle (t : Option Str) (fallback : Str) : Str :=
  match t with
  | none => fallback
  | some l => if l = [] then fallback else l

/-- `"q" + Date.now()`: the id minted by `addQuestion`, from the current
time in milliseconds (passed in explicitly). -/
def mkId (now : Nat) : Str := 'q' :: (Nat.repr now).toList

/-- The record constructed by `addQuestion` for a draft at time `now`. -/
def mkQuestion (d : Draft) (now : Nat) : Question :=
  { id := mkId now
    title := mergeTitle d.title "Custom question".toList
    audioUrl := d.audioUrl
    timeLimitSec := d.timeLimitSec
    tokens := (parse d.transcript).1
    blanks := (parse d.transcript).2 }

/-- `addQuestion`: parse the transcript, build the new record and append
it to the collection. -/
def addQuestion (now : Nat) (qs : List Question) (d : Draft) : List Question :=
  qs ++ [mkQuestion d now]

/-- `updateQuestion`: parse the transcript, then map over the collection
replacing every record whose id matches:
`{ ...q, title: title || q.title, audioUrl, timeLimitSec, tokens, blanks }`.
Only `title` falls back to the existing record; `audioUrl` and
`timeLimitSec` are taken from the draft unconditionally. -/
def updateQuestion (qs : List Question) (qid : Str) (d : Draft) : List Question :=
  qs.map (fun q =>
    if q.id = qid then
      { q with
        title := mergeTitle d.title q.title
        audioUrl := d.audioUrl
        timeLimitSec := d.timeLimitSec
        tokens := (parse d.transcript).1
        blanks := (parse d.transcript).2 }
    else q)

/-- `deleteQuestion`: keep every record whose id differs. -/
def deleteQuestion (qs : List Question) (qid : Str) : List Question :=
  qs.filter (fun q => q.id ≠ qid)

/-- C5: for a blank index of the question, `isCorrect` holds exactly
when the user entry is present, non-empty, and equal to the expected
answer after trimming surrounding whitespace and lowercasing both
sides; a missing or empty entry is never correct. -/
theorem grading_isCorrect (q : Question) (answers : Nat → Option Str) (i : Nat)
    (_h : i < q.blanks.length) :
    isCorrect q answers i = true ↔
      ∃ u, answers i = some u ∧ u ≠ [] ∧
        lowerStr (trimStr u) = lowerStr (trimStr (q.blanks.getD i [])) := by
  cases hu : answers i with
  | none => simp [isCorrect, hu]
  | some u => simp [isCorrect, hu, List.isEmpty_iff]

theorem grading_isCorrect_witness :
    1 < sampleQ.blanks.length ∧
      (isCorrect sampleQ (fun j => if j = 1 then some " EXERCISE  ".toList else none) 1 =
          true ↔
        ∃ u, (fun j => if j = 1 then some " EXERCISE  ".toList else none) 1 = some u ∧
          u ≠ [] ∧
          lowerStr (trimStr u) = lowerStr (trimStr (sampleQ.blanks.getD 1 []))) :=
  ⟨by decide,
    grading_isCorrect sampleQ (fun j => if j = 1 then some " EXERCISE  ".toList else none) 1
      (by decide)⟩

/-- C6: the Check event is guarded by `checked` being false (the button
is `disabled={checked}` and the timer effect tests `!checked`), so
invoking Check while `checked` is true leaves the whole session state
unchanged. -/
theorem check_idempotent_guard (q : Question) (s : Session) (h : s.checked = true) :
    checkEvent q s = s := by
  simp [checkEvent, h]

theorem check_idempotent_guard_witness :
    (Session.mk (fun _ => none) true 3 (some 7)).checked = true ∧
      checkEvent sampleQ (Session.mk (fun _ => none) true 3 (some 7)) =
        Session.mk (fun _ => none) true 3 (some 7) :=
  ⟨rfl, check_idempotent_guard sampleQ (Session.mk (fun _ => none) true 3 (some 7)) rfl⟩

/-- C1: after ShowAnswers every blank entry equals the expected answer
verbatim and `checked` is set, but the handler never recomputes
`score`: on a fresh session for the seed question (two blanks) the
score stays 0 instead of becoming `blanksCount`. -/
theorem show_answers_stale_score :
    (handleShowAnswers sampleQ (initSession sampleQ)).answers 0 = some "amenities".toList ∧
    (handleShowAnswers sampleQ (initSession sampleQ)).answers 1 = some "exercise".toList ∧
    (handleShowAnswers sampleQ (initSession sampleQ)).checked = true ∧
    (handleShowAnswers sampleQ (initSession sampleQ)).score = 0 ∧
    sampleQ.blanks.length = 2 :=
  ⟨rfl, rfl, rfl, rfl, rfl⟩

/-- C2: a missing stored value falls back to the seed collection and a
well-formed stored collection is loaded, but the source applies
`JSON.parse` with no try/catch, so a non-empty stored value that fails
to parse propagates the exception (modelled as `none`): startup
crashes instead of falling back. -/
theorem startup_fallback_behavior :
    (∀ jsonParse, initQuestions none jsonParse = some SAMPLE_QUESTIONS) ∧
    (∀ jsonParse s qs, s ≠ [] → jsonParse s = some qs →
      initQuestions (some s) jsonParse = some qs) ∧
    (∀ jsonParse s, s ≠ [] → jsonParse s = none →
      initQuestions (some s) jsonParse = none) := by
  refine ⟨fun _ => rfl, ?_, ?_⟩
  · intro jp s qs hs hp
    simp [initQuestions, hs, hp]
  · intro jp s hs hp
    simp [initQuestions, hs, hp]

theorem startup_fallback_behavior_witness :
    (['x'] : Str) ≠ [] ∧
      initQuestions none (fun _ => none) = some SAMPLE_QUESTIONS ∧
      initQuestions (some ['x']) (fun _ => none) = none :=
  ⟨by decide, startup_fallback_behavior.1 (fun _ => none),
    startup_fallback_behavior.2.2 (fun _ => none) ['x'] (by decide) rfl⟩

/-- C8 counterexample: updating the seed question with a draft whose
`audioUrl` is left unspecified does not merge the existing `audioUrl`;
the stored record ends with no `audioUrl` at all. -/
theorem update_merge_cex :
    (updateQuestion [sampleQ] ['q', '1'] (Draft.mk (some ['x']) ['t'] none none)).map
        Question.audioUrl = [none] ∧
      sampleQ.audioUrl ≠ none := by
  exact ⟨by decide, by decide⟩

/-- C8 amended: `update` preserves each question's id and position and
re-derives `tokens`/`blanks` from the draft's transcript; fields the
update does not name (such as `id`) are carried over and an
unspecified or empty `title` falls back to the existing title, but
`audioUrl` and `timeLimitSec` are always overwritten with the draft's
values. -/
theorem update_behavior (qs : List Question) (qid : Str) (d : Draft) (i : Nat)
    (h : i < qs.length) :
    (updateQuestion qs qid d).length = qs.length ∧
    (updateQuestion qs qid d)[i]? = some (
      if qs[i].id = qid then
        { qs[i] with
            title := mergeTitle d.title qs[i].title
            audioUrl := d.audioUrl
            timeLimitSec := d.timeLimitSec
            tokens := (parse d.transcript).1
            blanks := (parse d.transcript).2 }
      else qs[i]) := by
  constructor
  · simp [updateQuestion]
  · simp [updateQuestion, List.getElem?_map, List.getElem?_eq_getElem h]

theorem update_behavior_witness :
    0 < [sampleQ].length ∧
      (updateQuestion [sampleQ] ['q', '1'] (Draft.mk none ['t'] none none)).length =
        [sampleQ].length :=
  ⟨by decide,
    (update_behavior [sampleQ] ['q', '1'] (Draft.mk none ['t'] none none) 0 (by decide)).1⟩

/-- C9 counterexample: `addQuestion` mints `"q" + Date.now()`; if the
collection already holds a question with that id (here `q5`, added at
millisecond 5), the new id collides and the id list is no longer
duplicate-free. -/
theorem add_id_collision_cex :
    (addQuestion 5 [{ sampleQ with id := ['q', '5'] }]
        (Draft.mk none ['t'] none none)).map Question.id = [['q', '5'], ['q', '5']] ∧
      ¬ ((addQuestion 5 [{ sampleQ with id := ['q', '5'] }]
        (Draft.mk none ['t'] none none)).map Question.id).Nodup := by
  exact ⟨by decide, by decide⟩

/-- C9 amended: `add` appends the new question to the end of the
collection and gives it the id `"q" + now`; this id is unique in the
resulting collection only under the assumption that no existing
question already carries it (two adds in the same millisecond, or a
crafted existing id, collide). -/
theorem add_behavior (now : Nat) (qs : List Question) (d : Draft) :
    addQuestion now qs d = qs ++ [mkQuestion d now] ∧
    (mkQuestion d now).id = mkId now ∧
    ((qs.map Question.id).Nodup → mkId now ∉ qs.map Question.id →
      ((addQuestion now qs d).map Question.id).Nodup) := by
  refine ⟨rfl, rfl, ?_⟩
  intro hnd hni
  rw [addQuestion, List.map_append]
  simp [List.nodup_append, hnd, hni, mkQuestion]

theorem add_behavior_witness :
    ([sampleQ].map Question.id).Nodup ∧ mkId 5 ∉ [sampleQ].map Question.id ∧
      ((addQuestion 5 [sampleQ] (Draft.mk none ['t'] none none)).map Question.id).Nodup :=
  ⟨by decide, by decide,
    (add_behavior 5 [sampleQ] (Draft.mk none ['t'] none none)).2.2 (by decide) (by decide)⟩

end FIB
